import Mathlib

/-!
Verification of the consolidation core of `sp-energies-qd` (`Datafiles/utils.py`):
the dependency-set / cache layer (`FileDeps`, `cached`), the functional-dependency
checker (`check_fun_dep`) with its conflict-resolution combiners, the derived-column
stage of the two merge pipelines (`load_ground`, `load_addrm`), and the quantum-number
index codec (`n_ml_tms_to_p`, `p_to_n_ml_tms`).

Numbers are embedded as exact rationals (the Python code computes with floats; the
claims under scrutiny concern the algorithmic structure, and every concrete value used
in the examples is exactly representable).  Pandas tables are embedded as lists of rows,
a row being an association list from column names to values.
-/

namespace SpEnergies

/-- A cell value of a pandas table: a number, a short string, or a missing value
(pandas `NaN`/`None`). -/
inductive Value where
  | num (q : ℚ)
  | str (s : String)
  | null
deriving DecidableEq, Repr

/-- A row: association list from column names to values (first binding wins). -/
abbrev Row := List (String × Value)

/-- A table: ordered sequence of rows. -/
abbrev Table := List Row

namespace Value

/-- Numeric content of a value, defaulting to `0` for non-numbers.  Only applied
under hypotheses that the value is numeric. -/
def numD : Value → ℚ
  | .num q => q
  | _ => 0

/-- Rank used to order values of different kinds (pandas group keys are
homogeneous in this code base; the cross-kind order is a total-order completion). -/
def rank : Value → ℕ
  | .num _ => 0
  | .str _ => 1
  | .null => 2

/-- Boolean order on values, used for pandas' sorted group keys and `Series.max`. -/
def leB : Value → Value → Bool
  | .num a, .num b => a ≤ b
  | .str a, .str b => a ≤ b
  | a, b => a.rank ≤ b.rank

/-- Elementwise pandas equality: comparisons against a missing value are `False`
(`NaN == x` is falsy in pandas), otherwise plain equality. -/
def seriesEq : Value → Value → Bool
  | .num a, .num b => a = b
  | .str a, .str b => a = b
  | _, _ => false

end Value

/-- Column access on a row; an absent column behaves as a missing value. -/
def Row.get : Row → String → Value
  | [], _ => .null
  | (c', v) :: rest, c => if c' = c then v else Row.get rest c

/-- Column assignment (`d[c] = v` on one row): replace the first binding of `c`,
or append it if absent. -/
def Row.set (r : Row) (c : String) (v : Value) : Row :=
  match r with
  | [] => [(c, v)]
  | (c', v') :: rest =>
      if c' = c then (c, v) :: rest else (c', v') :: Row.set rest c v

/-- Column deletion (`del d[c]` on one row). -/
def Row.erase (r : Row) (c : String) : Row :=
  r.filter (fun p => decide (p.1 ≠ c))

@[simp] theorem Row.get_set_self (r : Row) (c : String) (v : Value) :
    (r.set c v).get c = v := by
  induction r with
  | nil => simp [Row.set, Row.get]
  | cons p rest ih =>
    rcases p with ⟨c', v'⟩
    by_cases h : c' = c
    · simp [Row.set, h, Row.get]
    · simpa [Row.set, h, Row.get] using ih

theorem Row.get_set_ne (r : Row) {c c' : String} (v : Value) (h : c' ≠ c) :
    (r.set c v).get c' = r.get c' := by
  induction r with
  | nil =>
    simp only [Row.set, Row.get]
    rw [if_neg (fun hh => h hh.symm)]
  | cons p rest ih =>
    rcases p with ⟨c₀, v₀⟩
    by_cases hp : c₀ = c
    · subst hp
      simp only [Row.set, if_pos rfl, Row.get]
      rw [if_neg (fun hh => h hh.symm), if_neg (fun hh => h hh.symm)]
    · simp only [Row.set, if_neg hp, Row.get]
      by_cases hc' : c₀ = c'
      · rw [if_pos hc', if_pos hc']
      · rw [if_neg hc', if_neg hc', ih]

theorem Row.get_erase_ne (r : Row) {c c' : String} (h : c' ≠ c) :
    (r.erase c).get c' = r.get c' := by
  induction r with
  | nil => simp [Row.erase, Row.get]
  | cons p rest ih =>
    rcases p with ⟨c₀, v₀⟩
    by_cases hp : c₀ = c
    · subst hp
      have h2 : Row.erase ((c₀, v₀) :: rest) c₀ = Row.erase rest c₀ := by
        simp [Row.erase, List.filter]
      rw [h2, ih]
      simp only [Row.get]
      rw [if_neg (fun hh => h hh.symm)]
    · have h2 : Row.erase ((c₀, v₀) :: rest) c = (c₀, v₀) :: Row.erase rest c := by
        simp [Row.erase, List.filter, hp]
      rw [h2]
      simp only [Row.get]
      by_cases hc' : c₀ = c'
      · rw [if_pos hc', if_pos hc']
      · rw [if_neg hc', if_neg hc', ih]

/-! ## FileDeps (utils.py lines 384–403)

`FileDeps` wraps a `frozenset` of declared paths; `__getitem__` returns a declared
path unchanged and raises `ValueError("undeclared dependency: ...")` otherwise. -/

/-- Embeds the `FileDeps` class: a set of declared read-only input paths
(`self._paths = frozenset(paths)`). -/
structure FileDeps where
  paths : List String

/-- Embeds `FileDeps.__getitem__`: raise `ValueError` when the path was not
declared, otherwise return the path unchanged. -/
def FileDeps.getItem (D : FileDeps) (path : String) : Except String String :=
  if path ∈ D.paths then .ok path
  else .error ("undeclared dependency: " ++ path)

/-! ## Quantum-number index codec (utils.py lines 552–568)

`n_ml_tms_to_p` and `p_to_n_ml_tms` convert between a flat state index `p` and the
quantum numbers `(n, ml, tms)`.  The decoder computes
`k = int((4 * p + 1) ** 0.5 - 1) // 2` in IEEE double-precision arithmetic:
the Python int `4*p + 1` is converted to the nearest double (round to nearest,
ties to even — exact below `2^53`), `** 0.5` takes its square root (modelled as
correctly rounded to nearest, which is what IEEE `sqrt` produces and what the C
library's `pow(x, 0.5)` returns on all but rare 1-ulp cases), `1.0` is
subtracted (an IEEE subtraction: the exact difference rounded to nearest), and
`int(...)` truncates.  Every step is embedded below in exact integer arithmetic.
Python's floor division `//` on integers is `Int.fdiv`. -/

/-- Exponent of the unit in the last place of a natural number viewed as an IEEE
double, for `2^53 ≤ n` (`Nat.log2 n - 52`). -/
def fp_exp (n : ℕ) : ℕ := Nat.log2 n - 52

/-- Value of the IEEE double nearest to the natural number `n` (round to
nearest, ties to even); the result is itself a natural number.  `n < 2^53` is
exact; otherwise `n` is rounded to the nearest multiple of its ulp
`2^(log2 n - 52)`.  Models CPython's correctly rounded int→float conversion. -/
def roundNatToDouble (n : ℕ) : ℕ :=
  if n < 2 ^ 53 then n
  else if 2 ^ (fp_exp n - 1) < n % 2 ^ fp_exp n ∨
      (n % 2 ^ fp_exp n = 2 ^ (fp_exp n - 1) ∧ (n / 2 ^ fp_exp n) % 2 = 1) then
    (n / 2 ^ fp_exp n + 1) * 2 ^ fp_exp n
  else (n / 2 ^ fp_exp n) * 2 ^ fp_exp n

/-- Nearest integer (ties to even) to `√A / 2^g`, decided by comparing `4·A`
with the squared midpoint — the correctly rounded significand of a square root
on the grid of doubles with spacing `2^g`. -/
def roundSqrtScaled (A g : ℕ) : ℕ :=
  if ((2 * (Nat.sqrt A / 2 ^ g) + 1) * 2 ^ g) ^ 2 < 4 * A ∨
      (4 * A = ((2 * (Nat.sqrt A / 2 ^ g) + 1) * 2 ^ g) ^ 2 ∧
        (Nat.sqrt A / 2 ^ g) % 2 = 1) then
    Nat.sqrt A / 2 ^ g + 1
  else Nat.sqrt A / 2 ^ g

/-- Binade of the square root of `float(x)`: `⌊log2 √(float x)⌋`, computed as
`Nat.log2 (Nat.sqrt (roundNatToDouble x))`. -/
def fp_sqrt_exp (x : ℕ) : ℕ := Nat.log2 (Nat.sqrt (roundNatToDouble x))

/-- Models the Python expression `int(float(x) ** 0.5 - 1)` for `x ≥ 1` in IEEE
double arithmetic.  Writing `xf = roundNatToDouble x`, `j = fp_sqrt_exp x`, the
correctly rounded square root is `s = ms · 2^(j-52)` with significand
`ms = roundSqrtScaled xf (j-52)` when `52 ≤ j`, and `s = ms / 2^(52-j)` with
`ms = roundSqrtScaled (xf · 4^(52-j)) 0` otherwise.
* `52 ≤ j`: `s` is an integer, `s - 1.0` is the exact difference rounded to
  nearest (`roundNatToDouble (s - 1)`), and `int` leaves that integer unchanged;
* `j < 52`: `s ≥ 1` has ulp `2^(j-52) ≤ 1/2`, so `s - 1.0` is exact (the
  difference `(ms - 2^(52-j)) / 2^(52-j)` is representable on the same grid) and
  `int` truncates it to `(ms - 2^(52-j)) / 2^(52-j)` (natural floor division). -/
def float_int_sqrt_sub_one (x : ℕ) : ℕ :=
  if 52 ≤ fp_sqrt_exp x then
    roundNatToDouble
      (roundSqrtScaled (roundNatToDouble x) (fp_sqrt_exp x - 52)
        * 2 ^ (fp_sqrt_exp x - 52) - 1)
  else
    (roundSqrtScaled (roundNatToDouble x * 4 ^ (52 - fp_sqrt_exp x)) 0
        - 2 ^ (52 - fp_sqrt_exp x))
      / 2 ^ (52 - fp_sqrt_exp x)

/-- Local `k = int((4 * p + 1) ** 0.5 - 1) // 2` of `p_to_n_ml_tms`, with the
float expression modelled by `float_int_sqrt_sub_one`. -/
def codec_k (p : ℕ) : ℕ := float_int_sqrt_sub_one (4 * p + 1) / 2

/-- Local `ml = p // 2 * 2 - k * (k + 2)` of `p_to_n_ml_tms`. -/
def codec_ml (p : ℕ) : ℤ := ((p / 2 : ℕ) : ℤ) * 2 - (codec_k p : ℤ) * ((codec_k p : ℤ) + 2)

/-- Local `n = (k - abs(ml)) // 2` of `p_to_n_ml_tms`. -/
def codec_n (p : ℕ) : ℤ := Int.fdiv ((codec_k p : ℤ) - ((codec_ml p).natAbs : ℤ)) 2

/-- Local `tms = 1 - p % 2 * 2` of `p_to_n_ml_tms`. -/
def codec_tms (p : ℕ) : ℤ := 1 - ((p % 2 : ℕ) : ℤ) * 2

/-- Embeds `p_to_n_ml_tms(p)`, returning `(n, ml, tms)`. -/
def p_to_n_ml_tms (p : ℕ) : ℤ × ℤ × ℤ := (codec_n p, codec_ml p, codec_tms p)

/-- Embeds `n_ml_tms_to_p(n, ml, tms)`, including its `assert n >= 0` and
`assert tms in [-1, 1]` (a failed assert raises `AssertionError`); on success it
returns `(1 - tms) // 2 + k * (k + 2) + ml` with `k = 2 * n + abs(ml)`. -/
def n_ml_tms_to_p (n ml tms : ℤ) : Except String ℤ :=
  if n < 0 then .error "AssertionError"
  else if tms = -1 ∨ tms = 1 then
    .ok (Int.fdiv (1 - tms) 2 + (2 * n + (ml.natAbs : ℤ)) * (2 * n + (ml.natAbs : ℤ) + 2) + ml)
  else .error "AssertionError"

/-- `Nat.sqrt` from a squeeze. -/
theorem sqrt_eq_of (n m : ℕ) (h1 : m * m ≤ n) (h2 : n < (m + 1) * (m + 1)) :
    Nat.sqrt n = m :=
  le_antisymm (Nat.lt_succ_iff.mp (Nat.sqrt_lt.mpr h2)) (Nat.le_sqrt.mpr h1)

/-- `Nat.log2` from a squeeze. -/
theorem log2_eq_of (n m : ℕ) (h1 : 2 ^ m ≤ n) (h2 : n < 2 ^ (m + 1)) :
    Nat.log2 n = m := by
  rw [Nat.log2_eq_log_two]
  exact Nat.log_eq_of_pow_le_of_lt_pow h1 h2

/-- Below `2^52` the whole float pipeline computes the exact integer square root
minus one: the int→float conversion is exact, the correctly rounded square root
stays inside the binade of `⌊√x⌋` (the distance from `√x` up to the next integer
exceeds half an ulp there), and the subtraction of `1.0` is exact. -/
theorem float_int_sqrt_sub_one_eq (x : ℕ) (hx1 : 1 ≤ x) (hx : x < 2 ^ 52) :
    float_int_sqrt_sub_one x = Nat.sqrt x - 1 := by
  have hxf : roundNatToDouble x = x := by
    unfold roundNatToDouble
    rw [if_pos (lt_trans hx (by norm_num))]
  have hm01 : 1 ≤ Nat.sqrt x := Nat.le_sqrt.mpr (by simpa using hx1)
  have hm026 : Nat.sqrt x < 2 ^ 26 := Nat.sqrt_lt.mpr
    (by rw [show (2 : ℕ) ^ 26 * 2 ^ 26 = 2 ^ 52 by norm_num]; exact hx)
  have hjval : fp_sqrt_exp x = Nat.log2 (Nat.sqrt x) := by
    unfold fp_sqrt_exp
    rw [hxf]
  have hj2 : 2 ^ Nat.log2 (Nat.sqrt x) ≤ Nat.sqrt x := Nat.log2_self_le (by omega)
  have hjm : Nat.sqrt x < 2 ^ (Nat.log2 (Nat.sqrt x) + 1) := Nat.lt_log2_self
  have hj25 : Nat.log2 (Nat.sqrt x) ≤ 25 := by
    by_contra hcon
    push_neg at hcon
    have h1 : (2 : ℕ) ^ 26 ≤ 2 ^ Nat.log2 (Nat.sqrt x) :=
      Nat.pow_le_pow_right (by norm_num) hcon
    omega
  unfold float_int_sqrt_sub_one
  rw [hjval, hxf, if_neg (by omega)]
  set j := Nat.log2 (Nat.sqrt x) with hjdef
  set m0 := Nat.sqrt x with hm0
  set G := 2 ^ (52 - j) with hGdef
  have hGpos : 0 < G := by rw [hGdef]; positivity
  have hGm : m0 + 1 ≤ G := by
    rw [hGdef]
    calc m0 + 1 ≤ 2 ^ (j + 1) := hjm
      _ ≤ 2 ^ (52 - j) := Nat.pow_le_pow_right (by norm_num) (by omega)
  have hA4 : x * 4 ^ (52 - j) = x * (G * G) := by
    rw [hGdef, show (4 : ℕ) = 2 * 2 from rfl, Nat.mul_pow]
  set A := x * 4 ^ (52 - j) with hAdef
  set M := Nat.sqrt A with hMdef
  have hlo : m0 * G ≤ M := by
    rw [hMdef]
    refine Nat.le_sqrt.mpr ?_
    rw [hA4]
    have h1 : m0 * m0 ≤ x := Nat.sqrt_le x
    nlinarith
  have hhi : M < (m0 + 1) * G := by
    rw [hMdef]
    refine Nat.sqrt_lt.mpr ?_
    rw [hA4]
    have h1 : x < (m0 + 1) * (m0 + 1) := Nat.lt_succ_sqrt x
    nlinarith
  have e1 : (m0 - 1) * G = m0 * G - G := by rw [Nat.sub_mul, one_mul]
  have e2 : (m0 + 1) * G = m0 * G + G := by ring
  have e3 : (m0 - 1 + 1) * G = m0 * G := by rw [Nat.sub_add_cancel hm01]
  have hGle : G ≤ m0 * G := Nat.le_mul_of_pos_left G (by omega)
  unfold roundSqrtScaled
  rw [← hMdef]
  simp only [pow_zero, Nat.div_one, mul_one]
  by_cases hcond : (2 * M + 1) ^ 2 < 4 * A ∨ (4 * A = (2 * M + 1) ^ 2 ∧ M % 2 = 1)
  · rw [if_pos hcond]
    rcases Nat.lt_or_ge (M + 1) ((m0 + 1) * G) with hup | hup
    · exact Nat.div_eq_of_lt_le (by omega) (by omega)
    · exfalso
      have hMe : M + 1 = (m0 + 1) * G := by omega
      have hx2 : x + 1 ≤ (m0 + 1) * (m0 + 1) := Nat.lt_succ_sqrt x
      have hGsq : (m0 + 1) * G ≤ G * G := Nat.mul_le_mul_right G hGm
      have s3 : M + 1 ≤ G * G := by rw [hMe]; exact hGsq
      have s4 : 4 * (x * (G * G)) + 4 * (G * G) ≤ 4 * ((M + 1) * (M + 1)) := by
        calc 4 * (x * (G * G)) + 4 * (G * G) = 4 * ((x + 1) * (G * G)) := by ring
          _ ≤ 4 * ((m0 + 1) * (m0 + 1) * (G * G)) := by
              exact Nat.mul_le_mul_left 4 (Nat.mul_le_mul_right (G * G) hx2)
          _ = 4 * (((m0 + 1) * G) * ((m0 + 1) * G)) := by ring
          _ = 4 * ((M + 1) * (M + 1)) := by rw [← hMe]
      have s5 : (2 * M + 1) ^ 2 + 4 * M + 3 = 4 * ((M + 1) * (M + 1)) := by ring
      have hfalse : 4 * A < (2 * M + 1) ^ 2 := by
        rw [hA4]
        linarith [s3, s4, s5]
      rcases hcond with h1 | ⟨h1, _⟩ <;> omega
  · rw [if_neg hcond]
    exact Nat.div_eq_of_lt_le (by omega) (by omega)

/-- On inputs below `2^50` the decoder computes `k = (isqrt(4p+1) - 1) / 2`. -/
theorem codec_k_eq_isqrt (p : ℕ) (hp : p < 2 ^ 50) :
    codec_k p = (Nat.sqrt (4 * p + 1) - 1) / 2 := by
  have h50 : (2 : ℕ) ^ 50 = 1125899906842624 := by norm_num
  have h52 : (2 : ℕ) ^ 52 = 4503599627370496 := by norm_num
  unfold codec_k
  rw [float_int_sqrt_sub_one_eq (4 * p + 1) (by omega) (by omega)]

/-- Shell index extracted by the decoder on the exact range:
`k(k+1) ≤ p ≤ k(k+1) + 2k + 1`, the index range of the energy shell `k`. -/
theorem codec_k_bounds (p : ℕ) (hp : p < 2 ^ 50) :
    codec_k p * codec_k p + codec_k p ≤ p ∧ p ≤ codec_k p * codec_k p + 3 * codec_k p + 1 := by
  rw [codec_k_eq_isqrt p hp]
  have hs1 := Nat.sqrt_le (4 * p + 1)
  have hs2 := Nat.lt_succ_sqrt (4 * p + 1)
  have hs0 : 1 ≤ Nat.sqrt (4 * p + 1) := Nat.le_sqrt.mpr (by omega)
  set s := Nat.sqrt (4 * p + 1) with hs
  have hk : s = 2 * ((s - 1) / 2) + 1 ∨ s = 2 * ((s - 1) / 2) + 2 := by omega
  set k := (s - 1) / 2 with hkd
  constructor
  · rcases hk with h | h <;> nlinarith
  · rcases hk with h | h <;> nlinarith

/-- Arithmetic core of the codec round trip, stated over the decoder's local
values after the one nonlinear product `K * K` is abstracted into `Mv`. -/
theorem codec_roundtrip_key (p K : ℕ) (Mv q t mlv av : ℤ)
    (h1 : Mv + K ≤ p) (h2 : (p : ℤ) ≤ Mv + 3 * K + 1)
    (h3 : q * 2 + t = p) (h4 : 0 ≤ t) (h5 : t ≤ 1)
    (h6 : (Mv - K) % 2 = 0) (h7 : mlv = q * 2 - Mv - 2 * K)
    (h8 : mlv = av ∨ mlv = -av)
    (hKK : (K : ℤ) * ((K : ℤ) + 2) = Mv + 2 * K) :
    0 ≤ Int.fdiv ((K : ℤ) - av) 2 ∧
    Int.fdiv (1 - (1 - t * 2)) 2 +
      (2 * Int.fdiv ((K : ℤ) - av) 2 + av) * (2 * Int.fdiv ((K : ℤ) - av) 2 + av + 2) +
      mlv = p := by
  have hak : av ≤ K := by omega
  have hevn : ((K : ℤ) - av) % 2 = 0 := by omega
  obtain ⟨c, hc⟩ : ∃ c : ℤ, (K : ℤ) - av = 2 * c := ⟨((K : ℤ) - av) / 2, by omega⟩
  rw [hc, Int.mul_fdiv_cancel_left c (by norm_num)]
  have ht2 : 1 - (1 - t * 2) = 2 * t := by ring
  rw [ht2, Int.mul_fdiv_cancel_left t (by norm_num)]
  have h2c : 2 * c + av = K := by omega
  rw [h2c, hKK]
  constructor
  · omega
  · omega

/-! ## Grouping (pandas `DataFrame.groupby(cols)` with the default `sort=True`)

Groups are keyed by the tuple of key-column values; pandas iterates them in
sorted key order, keeping the original row order inside each group. -/

/-- Key of a row under a list of key columns. -/
def keyOf (cols : List String) (r : Row) : List Value :=
  cols.map (Row.get r)

/-- Lexicographic strict order on group keys, built from `Value.leB`. -/
def keyLtB : List Value → List Value → Bool
  | [], [] => false
  | [], _ :: _ => true
  | _ :: _, [] => false
  | a :: as, b :: bs => if a = b then keyLtB as bs else Value.leB a b && !(a == b)

/-- Insert into a key list sorted by `keyLtB`. -/
def insertKey (k : List Value) : List (List Value) → List (List Value)
  | [] => [k]
  | k' :: ks => if keyLtB k k' then k :: k' :: ks else k' :: insertKey k ks

/-- Insertion sort of group keys (pandas `groupby` sorts keys by default). -/
def sortKeys : List (List Value) → List (List Value)
  | [] => []
  | k :: ks => insertKey k (sortKeys ks)

/-- Deduplicate a list keeping first occurrences. -/
def dedupFirst {α : Type} [DecidableEq α] : List α → List α
  | [] => []
  | x :: xs => x :: (dedupFirst xs).filter (fun y => decide (y ≠ x))

/-- Embeds `d.groupby(cols)`: the group keys in pandas' sorted iteration order,
each paired with the rows of `d` having that key, in original order. -/
def groupsOf (d : Table) (cols : List String) : List (List Value × Table) :=
  (sortKeys (dedupFirst (d.map (keyOf cols)))).map
    (fun k => (k, d.filter (fun r => decide (keyOf cols r = k))))

/-! ## Population statistics (`d.groupby(cols).std(ddof=0)`)

The standard-deviation test `std > tol` is embedded squared so that it stays in
exact rational arithmetic: for `tol ≥ 0`, `sqrt v > tol ↔ v > tol²`. -/

/-- Values of column `c` in a group, read as rationals (determined columns are
numeric wherever the checker is used; non-numbers are only reachable outside
the hypotheses of the theorems below). -/
def colVals (g : Table) (c : String) : List ℚ :=
  g.map (fun r => (Row.get r c).numD)

/-- Population variance (`ddof=0`): mean squared deviation from the mean. -/
def popVar (xs : List ℚ) : ℚ :=
  let m := xs.sum / xs.length
  (xs.map (fun x => (x - m) ^ 2)).sum / xs.length

/-- Embeds the elementwise test `std[out_col] > tolers[out_col]`: the population
standard deviation strictly exceeds `tol`, expressed squared over ℚ. -/
def stdExceedsB (xs : List ℚ) (tol : ℚ) : Bool :=
  decide (tol < 0) || decide (tol * tol < popVar xs)

/-- Specification-side reading of the same test, literally "the population
standard deviation strictly exceeds the tolerance" over the reals. -/
def popStdGt (xs : List ℚ) (tol : ℚ) : Prop :=
  (tol : ℝ) < Real.sqrt (popVar xs : ℝ)

/-! ## Conflict-resolution combiners (utils.py lines 597–613) -/

/-- Failures raised by the combiners (`raise Exception(...)` in the source). -/
inductive CombineError where
  | ambiguousPriority
  | nonUniqueGroup
deriving DecidableEq, Repr

/-- A combiner maps a key group to the selected rows, or fails. -/
abbrev Combiner := Table → Except CombineError Table

/-- Embeds `leftmost_combiner(d) = d.iloc[[0]]`. -/
def leftmost_combiner : Combiner := fun d => .ok (d.take 1)

/-- Embeds `rightmost_combiner(d) = d.iloc[[-1]]`. -/
def rightmost_combiner : Combiner := fun d => .ok (d.drop (d.length - 1))

/-- Embeds `unique_combiner`: fail unless the group has exactly one row. -/
def unique_combiner : Combiner := fun d =>
  if d.length ≠ 1 then .error .nonUniqueGroup else .ok d

/-- Embeds `DataFrame.drop_duplicates()`: drop exact duplicate rows, keeping the
first occurrence of each. -/
def drop_duplicates : Table → Table := dedupFirst

/-- Embeds `Series.max()` (`skipna=True`): the largest non-missing value of a
column, or missing when there is none. -/
def seriesMax (vs : List Value) : Value :=
  match vs.filter (fun v => decide (v ≠ .null)) with
  | [] => .null
  | x :: xs => xs.foldl (fun a b => if Value.leB a b then b else a) x

/-- Rows surviving `d.drop_duplicates()` followed by
`d[d["priority"] == d["priority"].max()]`. -/
def priority_max_subset (d : Table) : Table :=
  (drop_duplicates d).filter (fun r =>
    Value.seriesEq (Row.get r "priority")
      (seriesMax ((drop_duplicates d).map (fun r2 => Row.get r2 "priority"))))

/-- Embeds `priority_combiner`: drop exact duplicate rows, keep the rows whose
`priority` equals the column maximum, and fail if more than one row remains
(`raise Exception("cannot resolve data with equal priority")`). -/
def priority_combiner : Combiner := fun d =>
  if 1 < (priority_max_subset d).length then .error .ambiguousPriority
  else .ok (priority_max_subset d)

/-! ## check_fun_dep (utils.py lines 509–550) -/

/-- Failures surfaced by `check_fun_dep`:
* `noGroupKeys` — `d.groupby([])` raises `ValueError("No group keys passed!")`;
* `nullInput` — the `ValueError("input columns must not contain NaN")` sanity check;
* `emptyReduce` — `functools.reduce` over an empty `out_cols` sequence raises `TypeError`;
* `funDepViolation` — `FunDepViolationError`, carrying the offending rows;
* `combineFailed` — an exception escaping the combiner. -/
inductive CheckError where
  | noGroupKeys
  | nullInput
  | emptyReduce
  | funDepViolation (violations : Table)
  | combineFailed (e : CombineError)
deriving DecidableEq, Repr

/-- True when some row of `d` has a missing value in one of `cs`
(`d[cols + out_cols].isnull().any().any()`; an absent column reads as missing). -/
def hasNull (d : Table) (cs : List String) : Bool :=
  d.any (fun r => cs.any (fun c => decide (Row.get r c = .null)))

/-- Embeds `gs.apply(combiner)` followed by `reset_index(drop=True)`.  Pandas
`GroupBy.apply` has two output paths: when every group result is indexed like its
group (here: equals the group), the concatenated result is reindexed to the
original frame's index, returning the input rows in their original order;
otherwise the per-group results are concatenated in group iteration order. -/
def applyGroups (d : Table) (gs : List (List Value × Table)) (f : Combiner) :
    Except CombineError Table :=
  match gs.mapM (fun kg => f kg.2) with
  | .error e => .error e
  | .ok rs => if rs = gs.map (fun kg => kg.2) then .ok d else .ok rs.flatten

/-- Groups (in iteration order) for which the mask
`std[out_col] > tolers[out_col]`, OR-ed over the determined columns, is true. -/
def offendingGroups (d : Table) (cols : List String) (tolers : List (String × ℚ)) :
    List (List Value × Table) :=
  (groupsOf d cols).filter
    (fun kg => tolers.any (fun ct => stdExceedsB (colVals kg.2 ct.1) ct.2))

/-- Embeds `check_fun_dep(d, cols, tolers, combiner)`: group by the key columns,
reject missing values in key or determined columns, raise `FunDepViolationError`
with every row of every offending group when some group's population standard
deviation of a determined column exceeds its tolerance, and otherwise return `d`
(no combiner) or the combined groups. -/
def check_fun_dep (d : Table) (cols : List String) (tolers : List (String × ℚ))
    (combiner : Option Combiner) : Except CheckError Table :=
  if cols.isEmpty then .error .noGroupKeys
  else if d.isEmpty then .ok d
  else if hasNull d (cols ++ tolers.map (fun ct => ct.1)) then .error .nullInput
  else if tolers.isEmpty then .error .emptyReduce
  else if !(offendingGroups d cols tolers).isEmpty then
    .error (.funDepViolation ((offendingGroups d cols tolers).map (fun kg => kg.2)).flatten)
  else
    match combiner with
    | none => .ok d
    | some f =>
      match applyGroups d (groupsOf d cols) f with
      | .ok r => .ok r
      | .error e => .error (.combineFailed e)

/-! ## Basic facts about the variance test -/

theorem popVar_nonneg (xs : List ℚ) : 0 ≤ popVar xs := by
  unfold popVar
  apply div_nonneg
  · apply List.sum_nonneg
    intro x hx
    obtain ⟨y, _, rfl⟩ := List.mem_map.mp hx
    positivity
  · positivity

/-- The boolean test computed by the checker coincides with the literal reading
"the population standard deviation strictly exceeds the tolerance". -/
theorem stdExceedsB_iff (xs : List ℚ) (tol : ℚ) :
    stdExceedsB xs tol = true ↔ popStdGt xs tol := by
  unfold stdExceedsB popStdGt
  rw [Bool.or_eq_true, decide_eq_true_iff, decide_eq_true_iff]
  constructor
  · rintro (h | h)
    · exact lt_of_lt_of_le (by exact_mod_cast h) (Real.sqrt_nonneg _)
    · rcases lt_or_le tol 0 with h0 | h0
      · exact lt_of_lt_of_le (by exact_mod_cast h0) (Real.sqrt_nonneg _)
      · have hsq : ((tol : ℝ)) ^ 2 < ((popVar xs : ℚ) : ℝ) := by
          have : tol ^ 2 < popVar xs := by nlinarith
          exact_mod_cast this
        exact (Real.lt_sqrt (by exact_mod_cast h0)).mpr hsq
  · intro h
    rcases lt_or_le tol 0 with h0 | h0
    · exact Or.inl h0
    · right
      have hsq := (Real.lt_sqrt (by exact_mod_cast h0)).mp h
      have : tol ^ 2 < popVar xs := by exact_mod_cast hsq
      nlinarith

/-! ## C3 — dependency resolution -/

/-- C3: for every `DependencySet` and path, resolution (`FileDeps.__getitem__`)
fails iff the path is not among the declared paths, and a declared path is
returned unchanged. -/
theorem fileDeps_resolve_iff_declared (D : FileDeps) (p : String) :
    ((∃ e, D.getItem p = .error e) ↔ p ∉ D.paths) ∧
    (p ∈ D.paths → D.getItem p = .ok p) := by
  unfold FileDeps.getItem
  by_cases h : p ∈ D.paths
  · simp [h]
  · simp [h]

/-- Witness for C3 at a concrete dependency set. -/
theorem fileDeps_resolve_witness :
    FileDeps.getItem ⟨["ground-sarah.txt", "imsrg-qdpt/ground.txt"]⟩ "ground-sarah.txt"
      = .ok "ground-sarah.txt" :=
  (fileDeps_resolve_iff_declared ⟨["ground-sarah.txt", "imsrg-qdpt/ground.txt"]⟩
    "ground-sarah.txt").2 (by decide)

/-! ## C10 — codec round trip

The round trip holds on the range where the float pipeline is exact, but not for
every `p`: at `p = 2^58 + 2^29 - 1` the conversion of `4p+1 = 2^60 + 2^31 - 3`
to a double rounds UP to `2^60 + 2^31`, whose correctly rounded square root is a
whole binade step above the integer square root of `4p+1`; the decoder then
computes `k` one too large, yields `n = -1`, and re-encoding fails the
`assert n >= 0`. -/

/-- Equation lemma for `fp_exp` (the kernel must never evaluate `Nat.log2` at a
large literal, so all concrete computations go through propositional rewrites). -/
theorem fp_exp_def (n : ℕ) : fp_exp n = Nat.log2 n - 52 := rfl

/-- Equation lemma for `fp_sqrt_exp`. -/
theorem fp_sqrt_exp_def (x : ℕ) :
    fp_sqrt_exp x = Nat.log2 (Nat.sqrt (roundNatToDouble x)) := rfl

/-- Equation lemma for `codec_k`. -/
theorem codec_k_def (p : ℕ) : codec_k p = float_int_sqrt_sub_one (4 * p + 1) / 2 := rfl

/-- Equation lemma for `codec_ml`. -/
theorem codec_ml_def (p : ℕ) :
    codec_ml p = ((p / 2 : ℕ) : ℤ) * 2 - (codec_k p : ℤ) * ((codec_k p : ℤ) + 2) := rfl

/-- Equation lemma for `codec_n`. -/
theorem codec_n_def (p : ℕ) :
    codec_n p = Int.fdiv ((codec_k p : ℤ) - ((codec_ml p).natAbs : ℤ)) 2 := rfl

/-- `roundNatToDouble` on a large input that rounds up. -/
theorem roundNatToDouble_up (n : ℕ) (h1 : ¬ n < 2 ^ 53)
    (h2 : 2 ^ (fp_exp n - 1) < n % 2 ^ fp_exp n ∨
      (n % 2 ^ fp_exp n = 2 ^ (fp_exp n - 1) ∧ (n / 2 ^ fp_exp n) % 2 = 1)) :
    roundNatToDouble n = (n / 2 ^ fp_exp n + 1) * 2 ^ fp_exp n := by
  unfold roundNatToDouble
  rw [if_neg h1, if_pos h2]

/-- `roundSqrtScaled` when the true square root lies above the midpoint. -/
theorem roundSqrtScaled_up (A g : ℕ)
    (h : ((2 * (Nat.sqrt A / 2 ^ g) + 1) * 2 ^ g) ^ 2 < 4 * A ∨
      (4 * A = ((2 * (Nat.sqrt A / 2 ^ g) + 1) * 2 ^ g) ^ 2 ∧
        (Nat.sqrt A / 2 ^ g) % 2 = 1)) :
    roundSqrtScaled A g = Nat.sqrt A / 2 ^ g + 1 := by
  unfold roundSqrtScaled
  rw [if_pos h]

/-- `float_int_sqrt_sub_one` in the branch where the square root has fewer than
53 integer bits. -/
theorem float_int_sqrt_sub_one_small (x : ℕ) (h : ¬ 52 ≤ fp_sqrt_exp x) :
    float_int_sqrt_sub_one x =
      (roundSqrtScaled (roundNatToDouble x * 4 ^ (52 - fp_sqrt_exp x)) 0
        - 2 ^ (52 - fp_sqrt_exp x)) / 2 ^ (52 - fp_sqrt_exp x) := by
  unfold float_int_sqrt_sub_one
  rw [if_neg h]

/-- Evaluation of the float pipeline at `4p+1` for `p = 2^58 + 2^29 - 1`: the
decoder computes `k = 2^29` although `(isqrt(4p+1) - 1) // 2 = 2^29 - 1`. -/
theorem codec_k_at_counterexample : codec_k (2 ^ 58 + 2 ^ 29 - 1) = 2 ^ 29 := by
  have hx : 4 * (2 ^ 58 + 2 ^ 29 - 1) + 1 = 2 ^ 60 + 2 ^ 31 - 3 := by norm_num
  have hlog : Nat.log2 (2 ^ 60 + 2 ^ 31 - 3) = 60 := log2_eq_of _ _ (by norm_num) (by norm_num)
  have hexp : fp_exp (2 ^ 60 + 2 ^ 31 - 3) = 8 := by
    rw [fp_exp_def, hlog]
  have hxf : roundNatToDouble (2 ^ 60 + 2 ^ 31 - 3) = 2 ^ 60 + 2 ^ 31 := by
    rw [roundNatToDouble_up _ (by norm_num) (by rw [hexp]; exact Or.inl (by norm_num)), hexp]
    norm_num
  have hsq : Nat.sqrt (2 ^ 60 + 2 ^ 31) = 2 ^ 30 := sqrt_eq_of _ _ (by norm_num) (by norm_num)
  have hlogsq : Nat.log2 (2 ^ 30) = 30 := log2_eq_of _ _ (by norm_num) (by norm_num)
  have hfse : fp_sqrt_exp (2 ^ 60 + 2 ^ 31 - 3) = 30 := by
    rw [fp_sqrt_exp_def, hxf, hsq, hlogsq]
  have hsqA : Nat.sqrt ((2 ^ 60 + 2 ^ 31) * 4 ^ 22) = 2 ^ 52 + 2 ^ 22 - 1 :=
    sqrt_eq_of _ _ (by norm_num) (by norm_num)
  have hms : roundSqrtScaled ((2 ^ 60 + 2 ^ 31) * 4 ^ 22) 0 = 2 ^ 52 + 2 ^ 22 := by
    rw [roundSqrtScaled_up _ 0 (by rw [hsqA]; exact Or.inl (by norm_num)), hsqA]
    norm_num
  have hfis : float_int_sqrt_sub_one (2 ^ 60 + 2 ^ 31 - 3) = 2 ^ 30 := by
    rw [float_int_sqrt_sub_one_small _ (by rw [hfse]; norm_num), hfse, hxf,
      show (52 : ℕ) - 30 = 22 from rfl, hms]
    norm_num
  rw [codec_k_def, hx, hfis]
  norm_num

/-- C10 counterexample: at `p = 2^58 + 2^29 - 1` the decoder yields `n = -1`
(and `ml = -(2^29 + 2)`, `tms = -1`), and re-encoding raises `AssertionError`
instead of yielding `p` again. -/
theorem p_to_n_ml_tms_roundtrip_counterexample :
    (p_to_n_ml_tms (2 ^ 58 + 2 ^ 29 - 1)).1 = -1 ∧
    n_ml_tms_to_p (p_to_n_ml_tms (2 ^ 58 + 2 ^ 29 - 1)).1
      (p_to_n_ml_tms (2 ^ 58 + 2 ^ 29 - 1)).2.1
      (p_to_n_ml_tms (2 ^ 58 + 2 ^ 29 - 1)).2.2 = .error "AssertionError" := by
  have hml : codec_ml (2 ^ 58 + 2 ^ 29 - 1) = -(2 ^ 29 + 2) := by
    rw [codec_ml_def, codec_k_at_counterexample,
      show ((2 ^ 58 + 2 ^ 29 - 1 : ℕ) / 2) = 2 ^ 57 + 2 ^ 28 - 1 from by norm_num]
    norm_num
  have hn : codec_n (2 ^ 58 + 2 ^ 29 - 1) = -1 := by
    rw [codec_n_def, codec_k_at_counterexample, hml,
      show ((-(2 ^ 29 + 2) : ℤ)).natAbs = 2 ^ 29 + 2 from by norm_num,
      show (((2 ^ 29 : ℕ) : ℤ) - ((2 ^ 29 + 2 : ℕ) : ℤ)) = -2 from by norm_num]
    decide
  constructor
  · exact hn
  · show n_ml_tms_to_p (codec_n (2 ^ 58 + 2 ^ 29 - 1)) (codec_ml (2 ^ 58 + 2 ^ 29 - 1))
      (codec_tms (2 ^ 58 + 2 ^ 29 - 1)) = .error "AssertionError"
    rw [hn]
    unfold n_ml_tms_to_p
    rw [if_pos (by norm_num)]

/-- C10 (amended): for every `p < 2^50` — the range on which the decoder's float
square-root pipeline computes the exact integer square root — decoding `p` with
`p_to_n_ml_tms` and re-encoding the resulting `(n, ml, tms)` with
`n_ml_tms_to_p` yields `p` again (in particular the asserts pass).  For larger
`p` the float rounding can shift `k`, the decoded `n` can be negative, and the
re-encoding fails its assertion. -/
theorem p_to_n_ml_tms_roundtrip (p : ℕ) (hp : p < 2 ^ 50) :
    n_ml_tms_to_p (p_to_n_ml_tms p).1 (p_to_n_ml_tms p).2.1 (p_to_n_ml_tms p).2.2
      = .ok (p : ℤ) := by
  obtain ⟨hA, hB⟩ := codec_k_bounds p hp
  have hev : ((codec_k p : ℤ) * (codec_k p : ℤ) - (codec_k p : ℤ)) % 2 = 0 := by
    have h := Int.even_mul_succ_self ((codec_k p : ℤ) - 1)
    have h2 : (codec_k p : ℤ) * (codec_k p : ℤ) - (codec_k p : ℤ) =
        ((codec_k p : ℤ) - 1) * (((codec_k p : ℤ) - 1) + 1) := by ring
    rw [h2]
    exact Int.even_iff.mp h
  obtain ⟨hn0, hfor⟩ := codec_roundtrip_key p (codec_k p) ((codec_k p : ℤ) * (codec_k p : ℤ))
    ((p / 2 : ℕ) : ℤ) ((p % 2 : ℕ) : ℤ) (codec_ml p) ((codec_ml p).natAbs : ℤ)
    (by exact_mod_cast hA) (by exact_mod_cast hB)
    (by omega) (by positivity) (by omega)
    hev (by unfold codec_ml; ring)
    (Int.natAbs_eq (codec_ml p))
    (by ring)
  show n_ml_tms_to_p (codec_n p) (codec_ml p) (codec_tms p) = .ok (p : ℤ)
  unfold n_ml_tms_to_p codec_n codec_tms
  rw [if_neg (not_lt.mpr hn0), if_pos (by omega)]
  exact congrArg Except.ok hfor

/-- Witness for the amended C10 at `p = 7`. -/
theorem p_to_n_ml_tms_roundtrip_witness :
    n_ml_tms_to_p (p_to_n_ml_tms 7).1 (p_to_n_ml_tms 7).2.1 (p_to_n_ml_tms 7).2.2
      = .ok ((7 : ℕ) : ℤ) :=
  p_to_n_ml_tms_roundtrip 7 (by decide)

/-! ## C9 — empty table -/

/-- C9 counterexample: on the empty table with an empty list of key columns,
`check_fun_dep` does not return the table: `d.groupby([])` raises
`ValueError("No group keys passed!")` before the emptiness shortcut. -/
theorem check_fun_dep_empty_counterexample :
    check_fun_dep ([] : Table) [] [] none = .error .noGroupKeys := rfl

/-- C9 (amended): for the empty table and every NON-EMPTY choice of key columns,
every tolerances and every policy (also when a policy is supplied),
`check_fun_dep` never fails and returns the empty table unchanged. -/
theorem check_fun_dep_empty_table (cols : List String) (tolers : List (String × ℚ))
    (combiner : Option Combiner) (h : cols ≠ []) :
    check_fun_dep [] cols tolers combiner = .ok [] := by
  unfold check_fun_dep
  rw [if_neg (by simpa [List.isEmpty_iff] using h),
    if_pos (show List.isEmpty ([] : Table) = true from rfl)]

/-- Witness for the amended C9 at a concrete non-empty key-column list. -/
theorem check_fun_dep_empty_table_witness :
    check_fun_dep [] ["freq", "method"] [("energy", 6 / 10000)] (some priority_combiner)
      = .ok [] :=
  check_fun_dep_empty_table ["freq", "method"] [("energy", 6 / 10000)]
    (some priority_combiner) (by decide)

/-! ## C8 — missing values in key or determined columns -/

/-- C8: for every non-empty table with a missing value in a key or determined
column, `check_fun_dep` fails, with an error distinct from a functional-dependency
violation, identically for every policy (so before any dependency checking or
combining takes place). -/
theorem check_fun_dep_null_precondition (d : Table) (cols : List String)
    (tolers : List (String × ℚ)) (hne : d ≠ [])
    (hnull : hasNull d (cols ++ tolers.map (fun ct => ct.1)) = true) :
    ∃ e, (∀ combiner, check_fun_dep d cols tolers combiner = .error e) ∧
      ∀ v, e ≠ .funDepViolation v := by
  by_cases hc : cols.isEmpty
  · refine ⟨.noGroupKeys, fun combiner => ?_, fun v => by simp⟩
    unfold check_fun_dep
    rw [if_pos hc]
  · refine ⟨.nullInput, fun combiner => ?_, fun v => by simp⟩
    unfold check_fun_dep
    rw [if_neg hc, if_neg (by simpa [List.isEmpty_iff] using hne), if_pos hnull]

/-- Witness for C8: a one-row table with a missing key value fails for every
policy with an error that is not a `FunDepViolationError`. -/
theorem check_fun_dep_null_witness :
    ∃ e, (∀ combiner,
        check_fun_dep [[("freq", Value.null), ("energy", Value.num 1)]] ["freq"]
          [("energy", 1)] combiner = .error e) ∧
      ∀ v, e ≠ .funDepViolation v :=
  check_fun_dep_null_precondition [[("freq", Value.null), ("energy", Value.num 1)]]
    ["freq"] [("energy", 1)] (by decide) (by with_unfolding_all decide)

/-! ## C1 — violation iff some group exceeds tolerance, with all offending rows -/

/-- Membership in the offending groups, rephrased through `popStdGt`. -/
theorem mem_offendingGroups_iff (d : Table) (cols : List String)
    (tolers : List (String × ℚ)) (kg : List Value × Table) :
    kg ∈ offendingGroups d cols tolers ↔
      kg ∈ groupsOf d cols ∧ ∃ ct ∈ tolers, popStdGt (colVals kg.2 ct.1) ct.2 := by
  unfold offendingGroups
  rw [List.mem_filter]
  simp only [List.any_eq_true, stdExceedsB_iff]

/-- C1: for every non-empty table with non-empty key columns, no missing values
in key or determined columns, and numeric determined columns, `check_fun_dep`
raises a `FunDepViolationError` iff, for some key group and some determined
column, the population standard deviation (ddof=0) of that column within the
group strictly exceeds the column's tolerance; and when it raises, the carried
violations contain every row of every offending group. -/
theorem check_fun_dep_violation_iff (d : Table) (cols : List String)
    (tolers : List (String × ℚ)) (combiner : Option Combiner)
    (hne : d ≠ []) (hcols : cols ≠ [])
    (hnull : hasNull d (cols ++ tolers.map (fun ct => ct.1)) = false)
    (hnum : ∀ r ∈ d, ∀ ct ∈ tolers, ∃ q : ℚ, Row.get r ct.1 = .num q) :
    ((∃ v, check_fun_dep d cols tolers combiner = .error (.funDepViolation v)) ↔
      ∃ kg ∈ groupsOf d cols, ∃ ct ∈ tolers, popStdGt (colVals kg.2 ct.1) ct.2) ∧
    (∀ v, check_fun_dep d cols tolers combiner = .error (.funDepViolation v) →
      ∀ kg ∈ groupsOf d cols, (∃ ct ∈ tolers, popStdGt (colVals kg.2 ct.1) ct.2) →
        ∀ r ∈ kg.2, r ∈ v) := by
  have hcolsE : cols.isEmpty = false := by simpa [List.isEmpty_iff] using hcols
  have hdE : d.isEmpty = false := by simpa [List.isEmpty_iff] using hne
  have hRHS : (∃ kg ∈ groupsOf d cols, ∃ ct ∈ tolers, popStdGt (colVals kg.2 ct.1) ct.2) ↔
      offendingGroups d cols tolers ≠ [] := by
    constructor
    · rintro ⟨kg, hkg, hex⟩ h0
      have hm := (mem_offendingGroups_iff d cols tolers kg).mpr ⟨hkg, hex⟩
      rw [h0] at hm
      exact absurd hm (List.not_mem_nil _)
    · intro h0
      obtain ⟨kg, hkg⟩ := List.exists_mem_of_ne_nil _ h0
      obtain ⟨h1, h2⟩ := (mem_offendingGroups_iff d cols tolers kg).mp hkg
      exact ⟨kg, h1, h2⟩
  by_cases hbad : offendingGroups d cols tolers = []
  · have hres : ∀ v, check_fun_dep d cols tolers combiner ≠ .error (.funDepViolation v) := by
      intro v
      unfold check_fun_dep
      simp only [hcolsE, hdE, hnull, hbad, List.isEmpty_nil, Bool.not_true,
        Bool.false_eq_true, if_false]
      cases htol : tolers.isEmpty
      · cases combiner with
        | none => simp
        | some f =>
          cases happ : applyGroups d (groupsOf d cols) f <;> simp [happ]
      · simp
    refine ⟨⟨fun hex => ?_, fun hex => ?_⟩, fun v hv => absurd hv (hres v)⟩
    · obtain ⟨v, hv⟩ := hex
      exact absurd hv (hres v)
    · exact absurd hbad (hRHS.mp hex)
  · have htolne : tolers ≠ [] := by
      intro h0
      apply hbad
      unfold offendingGroups
      subst h0
      simp
    have hres : check_fun_dep d cols tolers combiner =
        .error (.funDepViolation ((offendingGroups d cols tolers).map (fun kg => kg.2)).flatten) := by
      unfold check_fun_dep
      rw [if_neg (by simp [hcolsE]), if_neg (by simp [hdE]), if_neg (by simp [hnull]),
        if_neg (by simp [List.isEmpty_iff, htolne]),
        if_pos (by simp [List.isEmpty_iff, hbad])]
    refine ⟨⟨fun _ => hRHS.mpr hbad, fun _ => ⟨_, hres⟩⟩, fun v hv kg hkg hex r hr => ?_⟩
    rw [hres] at hv
    simp only [Except.error.injEq, CheckError.funDepViolation.injEq] at hv
    subst hv
    rw [List.mem_flatten]
    exact ⟨kg.2, List.mem_map.mpr
      ⟨kg, (mem_offendingGroups_iff d cols tolers kg).mpr ⟨hkg, hex⟩, rfl⟩, hr⟩

/-- Witness for C1 at the specification's worked example: two rows in one key
group with determined values `10.0` and `10.05` and tolerance `0.01` raise a
violation. -/
theorem check_fun_dep_violation_witness :
    ∃ v, check_fun_dep [[("k", Value.num 1), ("c", Value.num 10)],
        [("k", Value.num 1), ("c", Value.num (201 / 20))]] ["k"] [("c", 1 / 100)] none
      = .error (.funDepViolation v) :=
  (check_fun_dep_violation_iff _ ["k"] [("c", 1 / 100)] none
    (by decide) (by decide) (by with_unfolding_all rfl)
    (by
      intro r hr ct hct
      have hct2 : ct = ("c", (1 : ℚ) / 100) := by simpa using hct
      subst hct2
      rcases List.mem_cons.mp hr with h | h
      · exact ⟨10, by rw [h]; with_unfolding_all rfl⟩
      · have h2 : r = [("k", Value.num 1), ("c", Value.num (201 / 20))] := by simpa using h
        exact ⟨201 / 20, by rw [h2]; with_unfolding_all rfl⟩)).1.mpr
    ⟨([Value.num 1], [[("k", Value.num 1), ("c", Value.num 10)],
        [("k", Value.num 1), ("c", Value.num (201 / 20))]]),
      by with_unfolding_all decide,
      ("c", 1 / 100), by with_unfolding_all decide,
      (stdExceedsB_iff _ _).mp (by with_unfolding_all rfl)⟩

/-! ## C7 — reducing an already-deduplicated table is a no-op -/

instance exceptDecEq {e a : Type} [DecidableEq e] [DecidableEq a] :
    DecidableEq (Except e a) := fun x y =>
  match x, y with
  | .ok u, .ok v =>
    if h : u = v then .isTrue (by rw [h]) else .isFalse (fun hh => by cases hh; exact h rfl)
  | .error u, .error v =>
    if h : u = v then .isTrue (by rw [h]) else .isFalse (fun hh => by cases hh; exact h rfl)
  | .ok u, .error v => .isFalse (fun hh => by cases hh)
  | .error u, .ok v => .isFalse (fun hh => by cases hh)

/-- When a combiner fixes every group, `mapM` returns exactly the group bodies. -/
theorem mapM_ok_of_fix (gs : List (List Value × Table)) (f : Combiner)
    (h : ∀ kg ∈ gs, f kg.2 = .ok kg.2) :
    gs.mapM (fun kg => f kg.2) = .ok (gs.map (fun kg => kg.2)) := by
  induction gs with
  | nil => rfl
  | cons g gs ih =>
    rw [List.mapM_cons, h g (List.mem_cons_self g gs),
      ih (fun kg hkg => h kg (List.mem_cons_of_mem g hkg))]
    rfl

/-- When a combiner fixes every group, pandas' `GroupBy.apply` detects that every
per-group result is indexed like its group and reindexes the concatenation back to
the original frame's index: the input comes back unchanged. -/
theorem applyGroups_fix (d : Table) (gs : List (List Value × Table)) (f : Combiner)
    (h : ∀ kg ∈ gs, f kg.2 = .ok kg.2) :
    applyGroups d gs f = .ok d := by
  unfold applyGroups
  rw [mapM_ok_of_fix gs f h]
  exact if_pos rfl

/-- C7: for every table already fully deduplicated under a policy (the policy
maps every key group to exactly its own rows) that passes the null and tolerance
checks, applying `check_fun_dep` with that same policy again returns the table
unchanged. -/
theorem check_fun_dep_idempotent (d : Table) (cols : List String)
    (tolers : List (String × ℚ)) (f : Combiner)
    (hcols : cols ≠ []) (htol : tolers ≠ [])
    (hnull : hasNull d (cols ++ tolers.map (fun ct => ct.1)) = false)
    (hpass : offendingGroups d cols tolers = [])
    (hfix : ∀ kg ∈ groupsOf d cols, f kg.2 = .ok kg.2) :
    check_fun_dep d cols tolers (some f) = .ok d := by
  by_cases hd : d = []
  · subst hd
    unfold check_fun_dep
    rw [if_neg (by simpa [List.isEmpty_iff] using hcols),
      if_pos (show List.isEmpty ([] : Table) = true from rfl)]
  · unfold check_fun_dep
    rw [if_neg (by simp [List.isEmpty_iff, hcols]),
      if_neg (by simp [List.isEmpty_iff, hd]),
      if_neg (by simp [hnull]),
      if_neg (by simp [List.isEmpty_iff, htol]),
      if_neg (by simp [hpass])]
    show (match applyGroups d (groupsOf d cols) f with
      | Except.ok r => Except.ok r
      | Except.error e => Except.error (CheckError.combineFailed e)) = Except.ok d
    rw [applyGroups_fix d (groupsOf d cols) f hfix]

/-- Witness for C7: a two-row table whose rows are NOT in sorted key order, with
singleton key groups, comes back unchanged (in its original order) under the
leftmost policy. -/
theorem check_fun_dep_idempotent_witness :
    check_fun_dep [[("k", Value.num 2), ("c", Value.num 20)],
        [("k", Value.num 1), ("c", Value.num 10)]] ["k"] [("c", 1)]
      (some leftmost_combiner)
      = .ok [[("k", Value.num 2), ("c", Value.num 20)],
          [("k", Value.num 1), ("c", Value.num 10)]] :=
  check_fun_dep_idempotent _ ["k"] [("c", 1)] leftmost_combiner
    (by decide) (by decide) (by with_unfolding_all rfl)
    (by with_unfolding_all rfl) (by with_unfolding_all decide)

/-! ## C5 — the priority-max policy -/

/-- C5 counterexample: a group whose rows carry priorities `[0, 2, 2]` but whose
two priority-2 rows are exact duplicates SUCCEEDS, because `drop_duplicates`
collapses them before the maximum is counted — the claim that a group with
priorities `[0, 2, 2]` fails does not hold of such a group. -/
theorem priority_combiner_022_counterexample :
    ([[("priority", Value.num 0), ("x", Value.num 1)],
      [("priority", Value.num 2), ("x", Value.num 5)],
      [("priority", Value.num 2), ("x", Value.num 5)]].map
        (fun r => Row.get r "priority") = [Value.num 0, Value.num 2, Value.num 2]) ∧
    priority_combiner [[("priority", Value.num 0), ("x", Value.num 1)],
      [("priority", Value.num 2), ("x", Value.num 5)],
      [("priority", Value.num 2), ("x", Value.num 5)]]
      = .ok [[("priority", Value.num 2), ("x", Value.num 5)]] := by
  constructor
  · with_unfolding_all rfl
  · with_unfolding_all rfl

/-- C5 (amended): `priority_combiner` first drops exact duplicate rows, then
keeps the rows at the maximum priority and fails when more than one row remains;
in particular a group of three rows with priorities `[0, 2, 2]` whose two
priority-2 rows are distinct rows fails, while a group with priorities `[0, 2]`
returns the priority-2 row. -/
theorem priority_combiner_max (r0 r1 r2 : Row)
    (h0 : Row.get r0 "priority" = .num 0)
    (h1 : Row.get r1 "priority" = .num 2)
    (h2 : Row.get r2 "priority" = .num 2)
    (h12 : r1 ≠ r2) :
    priority_combiner [r0, r1, r2] = .error .ambiguousPriority ∧
    priority_combiner [r0, r1] = .ok [r1] := by
  have h01 : r0 ≠ r1 := fun he => by
    rw [he, h1] at h0
    exact absurd (Value.num.inj h0) (by norm_num)
  have h02 : r0 ≠ r2 := fun he => by
    rw [he, h2] at h0
    exact absurd (Value.num.inj h0) (by norm_num)
  have hded3 : dedupFirst [r0, r1, r2] = [r0, r1, r2] := by
    simp [dedupFirst, List.filter_cons, Ne.symm h12, Ne.symm h01, Ne.symm h02]
  have hded2 : dedupFirst [r0, r1] = [r0, r1] := by
    simp [dedupFirst, List.filter_cons, Ne.symm h01]
  have hmax3 : seriesMax ([r0, r1, r2].map (fun r2 => Row.get r2 "priority"))
      = Value.num 2 := by
    have hmap : [r0, r1, r2].map (fun r2 => Row.get r2 "priority")
        = [Value.num 0, Value.num 2, Value.num 2] := by simp [h0, h1, h2]
    rw [hmap]
    with_unfolding_all rfl
  have hmax2 : seriesMax ([r0, r1].map (fun r2 => Row.get r2 "priority"))
      = Value.num 2 := by
    have hmap : [r0, r1].map (fun r2 => Row.get r2 "priority")
        = [Value.num 0, Value.num 2] := by simp [h0, h1]
    rw [hmap]
    with_unfolding_all rfl
  have e0 : Value.seriesEq (Row.get r0 "priority") (Value.num 2) = false := by
    rw [h0]; with_unfolding_all rfl
  have e1 : Value.seriesEq (Row.get r1 "priority") (Value.num 2) = true := by
    rw [h1]; with_unfolding_all rfl
  have e2 : Value.seriesEq (Row.get r2 "priority") (Value.num 2) = true := by
    rw [h2]; with_unfolding_all rfl
  have hsub3 : priority_max_subset [r0, r1, r2] = [r1, r2] := by
    unfold priority_max_subset drop_duplicates
    rw [hded3, hmax3]
    simp [List.filter_cons, e0, e1, e2]
  have hsub2 : priority_max_subset [r0, r1] = [r1] := by
    unfold priority_max_subset drop_duplicates
    rw [hded2, hmax2]
    simp [List.filter_cons, e0, e1]
  constructor
  · unfold priority_combiner
    rw [hsub3]
    rfl
  · unfold priority_combiner
    rw [hsub2]
    rfl

/-- Witness for the amended C5 at concrete distinct rows. -/
theorem priority_combiner_max_witness :
    priority_combiner [[("priority", Value.num 0)],
      [("priority", Value.num 2), ("x", Value.num 1)],
      [("priority", Value.num 2), ("x", Value.num 2)]] = .error .ambiguousPriority ∧
    priority_combiner [[("priority", Value.num 0)],
      [("priority", Value.num 2), ("x", Value.num 1)]]
      = .ok [[("priority", Value.num 2), ("x", Value.num 1)]] :=
  priority_combiner_max [("priority", Value.num 0)]
    [("priority", Value.num 2), ("x", Value.num 1)]
    [("priority", Value.num 2), ("x", Value.num 2)]
    (by with_unfolding_all rfl) (by with_unfolding_all rfl)
    (by with_unfolding_all rfl) (by with_unfolding_all decide)

/-! ## C6 — derived particle count in both merge pipelines

The front halves of `load_ground` (lines 671–737) and `load_addrm` (lines
788–899) read and normalize source files, concatenate them, and run
`check_fun_dep`; only the trailing derived-column assignments touch
`num_particles`.  They are embedded applied to an arbitrary post-check table,
which covers whatever the file-reading front end produces. -/

/-- Elementwise `d["num_filled"] * (d["num_filled"] + 1)` on one value (missing
propagates like pandas `NaN`). -/
def value_num_particles : Value → Value
  | .num q => .num (q * (q + 1))
  | _ => .null

/-- Elementwise `d["energy"] / d["num_particles"]` on a pair of values. -/
def value_energy_per_particle : Value → Value → Value
  | .num a, .num b => .num (a / b)
  | _, _ => .null

/-- One row after the assignments `d["interaction"] = "normal"`,
`d["label"] = "ground"`, `d["ml"] = 0` of `load_ground`. -/
def ground_keys_row (r : Row) : Row :=
  ((r.set "interaction" (.str "normal")).set "label" (.str "ground")).set "ml" (.num 0)

/-- The row additionally after
`d["num_particles"] = d["num_filled"] * (d["num_filled"] + 1)`. -/
def ground_np_row (r : Row) : Row :=
  (ground_keys_row r).set "num_particles"
    (value_num_particles ((ground_keys_row r).get "num_filled"))

/-- The row additionally after
`d["energy_per_particle"] = d["energy"] / d["num_particles"]`. -/
def ground_epp_row (r : Row) : Row :=
  (ground_np_row r).set "energy_per_particle"
    (value_energy_per_particle ((ground_np_row r).get "energy")
      ((ground_np_row r).get "num_particles"))

/-- Embeds the tail of `load_ground` (lines 738–744): optionally delete
`priority`, then assign `interaction`, `label`, `ml`, `num_particles` and
`energy_per_particle`. -/
def load_ground_derive (with_priority : Bool) (d : Table) : Table :=
  (if with_priority then d else d.map (fun r => r.erase "priority")).map ground_epp_row

/-- Embeds the tail of `load_addrm` (line 900):
`d["num_particles"] = d["num_filled"] * (d["num_filled"] + 1)`. -/
def load_addrm_derive (d : Table) : Table :=
  d.map (fun r => r.set "num_particles" (value_num_particles (r.get "num_filled")))

/-- C6: every row of the table produced by either merge pipeline satisfies
`num_particles = num_filled * (num_filled + 1)` (stated for both derived-column
stages over arbitrary upstream tables, with a numeric `num_filled`). -/
theorem num_particles_invariant (wp : Bool) (d d' : Table) (r : Row) (q : ℚ) :
    (r ∈ load_ground_derive wp d → Row.get r "num_filled" = .num q →
      Row.get r "num_particles" = .num (q * (q + 1))) ∧
    (r ∈ load_addrm_derive d' → Row.get r "num_filled" = .num q →
      Row.get r "num_particles" = .num (q * (q + 1))) := by
  constructor
  · intro hr hq
    unfold load_ground_derive at hr
    obtain ⟨r0, _, rfl⟩ := List.mem_map.mp hr
    unfold ground_epp_row ground_np_row ground_keys_row at hq ⊢
    rw [Row.get_set_ne _ _ (by decide), Row.get_set_self,
      Row.get_set_ne _ _ (by decide), Row.get_set_ne _ _ (by decide),
      Row.get_set_ne _ _ (by decide)]
    rw [Row.get_set_ne _ _ (by decide), Row.get_set_ne _ _ (by decide),
      Row.get_set_ne _ _ (by decide), Row.get_set_ne _ _ (by decide),
      Row.get_set_ne _ _ (by decide)] at hq
    rw [hq]
    rfl
  · intro hr hq
    unfold load_addrm_derive at hr
    obtain ⟨r0, _, rfl⟩ := List.mem_map.mp hr
    rw [Row.get_set_self]
    rw [Row.get_set_ne _ _ (by decide)] at hq
    rw [hq]
    rfl

/-- Witness for C6 on a one-row table with `num_filled = 3` in both pipelines. -/
theorem num_particles_invariant_witness :
    Row.get ((load_ground_derive true [[("num_filled", Value.num 3),
        ("energy", Value.num 12)]]).headI) "num_particles" = Value.num 12 ∧
    Row.get ((load_addrm_derive [[("num_filled", Value.num 3),
        ("energy", Value.num 12)]]).headI) "num_particles" = Value.num 12 := by
  constructor
  · have h := (num_particles_invariant true [[("num_filled", Value.num 3),
        ("energy", Value.num 12)]] []
        ((load_ground_derive true [[("num_filled", Value.num 3),
          ("energy", Value.num 12)]]).headI) 3).1
      (by with_unfolding_all decide) (by with_unfolding_all rfl)
    rw [h]
    with_unfolding_all rfl
  · have h := (num_particles_invariant true []
        [[("num_filled", Value.num 3), ("energy", Value.num 12)]]
        ((load_addrm_derive [[("num_filled", Value.num 3),
          ("energy", Value.num 12)]]).headI) 3).2
      (by with_unfolding_all decide) (by with_unfolding_all rfl)
    rw [h]
    with_unfolding_all rfl

/-! ## C4 — corrupt or unreadable cache entries

The read path of the wrapper produced by `cached()` (utils.py lines 413–429) is

    try:
        with open(path, "rb") as f:
            return load(f)
    except (OSError, pickle.UnpicklingError):
        pass
    result = func(*args, **kwargs)
    os.makedirs(dir, exist_ok=True)
    with open(path, "wb") as f:
        dump(result, f)
    return result

Only `OSError` (raised by `open`) and `pickle.UnpicklingError` are caught; any
other exception escaping `load` — such as the `EOFError` that `pickle.load`
raises on a truncated entry — propagates to the caller. -/

/-- Exceptions that can arise while opening and deserializing a cache entry. -/
inductive LoadError where
  | osError
  | unpicklingError
  | eofError
deriving DecidableEq, Repr

/-- Embeds one call of the memoizing wrapper, abstracted over the store:
`entry` is the stored bytes at the entry path (`none` when `open` raises
`OSError`), `load` deserializes them, and `compute` is the result of calling the
wrapped function on a miss. -/
def cached_call {α : Type} (entry : Option (List ℕ))
    (load : List ℕ → Except LoadError α) (compute : α) : Except LoadError α :=
  match entry with
  | none => .ok compute
  | some bs =>
    match load bs with
    | .ok r => .ok r
    | .error .osError => .ok compute
    | .error .unpicklingError => .ok compute
    | .error .eofError => .error .eofError

/-- C4 counterexample: an entry whose deserialization fails with an `EOFError`
(a truncated pickle) is NOT treated as a miss — the failure is surfaced to the
caller instead of recomputing. -/
theorem cached_call_eof_counterexample :
    cached_call (some [0]) (fun _ => (.error .eofError : Except LoadError ℕ)) 42
        = .error .eofError ∧
    ∀ r : ℕ, cached_call (some [0]) (fun _ => (.error .eofError : Except LoadError ℕ)) 42
        ≠ .ok r :=
  ⟨rfl, fun _ h => by cases h⟩

/-- C4 (amended): an entry whose open fails with an `OSError` or whose
deserialization fails with an `UnpicklingError` is treated as a cache miss — the
wrapped function is recomputed and its result returned, with nothing surfaced;
deserialization failures outside those two caught classes (such as `EOFError` on
a truncated pickle) propagate to the caller. -/
theorem cached_call_corrupt_is_miss {α : Type} (entry : Option (List ℕ))
    (load : List ℕ → Except LoadError α) (compute : α)
    (h : entry = none ∨ ∃ bs, entry = some bs ∧
      (load bs = .error .osError ∨ load bs = .error .unpicklingError)) :
    cached_call entry load compute = .ok compute := by
  rcases h with h | ⟨bs, rfl, h⟩
  · subst h
    rfl
  · rcases h with h | h <;> simp [cached_call, h]

/-- Witness for the amended C4: an unpickling failure recomputes and returns. -/
theorem cached_call_corrupt_is_miss_witness :
    cached_call (some [7]) (fun _ => (.error .unpicklingError : Except LoadError ℕ)) 5
      = .ok 5 :=
  cached_call_corrupt_is_miss (some [7])
    (fun _ => (.error .unpicklingError : Except LoadError ℕ)) 5
    (Or.inr ⟨[7], rfl, Or.inr rfl⟩)

/-! ## C2 — persistence of a cache entry on a miss

On a miss the wrapper runs `os.makedirs(dir, exist_ok=True)` and then
`with open(path, "wb") as f: dump(result, f)`: `open(path, "wb")` truncates the
FINAL entry path in place and `dump` writes the serialized bytes to it chunk by
chunk.  There is no temporary file and no rename (contrast `save_json`, lines
376–379, which does write `fn + ".tmp"` and rename).  The model below records
each file-system operation and every intermediate state a concurrent reader of
the cache directory could observe. -/

/-- A file system: contents by path. -/
structure FsState where
  files : List (String × List ℕ)
deriving DecidableEq, Repr

/-- Content at a path, if the file exists. -/
def FsState.read (fs : FsState) (p : String) : Option (List ℕ) :=
  match fs.files.find? (fun e => decide (e.1 = p)) with
  | some e => some e.2
  | none => none

/-- Replace (or create) the content at a path. -/
def FsState.write (fs : FsState) (p : String) (content : List ℕ) : FsState :=
  ⟨(p, content) :: fs.files.filter (fun e => decide (e.1 ≠ p))⟩

/-- File-system operations a persistence strategy can perform. -/
inductive FsOp where
  | mkdirOp (d : String)
  | openTrunc (p : String)
  | writeChunk (p : String) (bytes : List ℕ)
  | renameOp (src dst : String)
deriving DecidableEq, Repr

/-- Effect of one operation. -/
def FsOp.apply (fs : FsState) : FsOp → FsState
  | .mkdirOp _ => fs
  | .openTrunc p => fs.write p []
  | .writeChunk p b => fs.write p (((fs.read p).getD []) ++ b)
  | .renameOp src dst =>
    match fs.read src with
    | some c => (⟨fs.files.filter (fun e => decide (e.1 ≠ src))⟩ : FsState).write dst c
    | none => fs

/-- Each state a reader can observe while `ops` run from `fs`, in order. -/
def statesFrom (fs : FsState) : List FsOp → List FsState
  | [] => [fs]
  | op :: ops => fs :: statesFrom (op.apply fs) ops

/-- Final state after running `ops` from `fs`. -/
def runOps (fs : FsState) (ops : List FsOp) : FsState :=
  ops.foldl (fun s op => FsOp.apply s op) fs

/-- Whether an operation is a rename. -/
def FsOp.isRename : FsOp → Bool
  | .renameOp _ _ => true
  | _ => false

/-- Operations performed by the miss path of the `cached()` wrapper
(utils.py lines 426–428): make the cache directory, open the FINAL entry path
for writing (truncating it), and write the serialized result in chunks. -/
def cachedMissOps (dir path : String) (chunks : List (List ℕ)) : List FsOp :=
  .mkdirOp dir :: .openTrunc path :: chunks.map (.writeChunk path)

/-- Claim-side predicate: the persistence is atomic for readers — in every
observable state the entry is either absent or holds the complete data. -/
def AtomicPersist (fs : FsState) (ops : List FsOp) (path : String)
    (data : List ℕ) : Prop :=
  ∀ s ∈ statesFrom fs ops, s.read path = none ∨ s.read path = some data

/-- Claim-side predicate: the result is persisted by writing to a temporary
location and renaming it onto the final path — no write or truncation targets
the final path directly, which is instead filled by some rename. -/
def TempThenRename (ops : List FsOp) (path : String) : Prop :=
  (∀ op ∈ ops, ∀ b, op ≠ .writeChunk path b ∧ op ≠ .openTrunc path) ∧
  ∃ tmp, FsOp.renameOp tmp path ∈ ops

@[simp] theorem FsState.read_write_self (fs : FsState) (p : String) (c : List ℕ) :
    (fs.write p c).read p = some c := by
  simp [FsState.write, FsState.read, List.find?]

theorem mem_statesFrom_self (fs : FsState) (ops : List FsOp) :
    fs ∈ statesFrom fs ops := by
  cases ops <;> simp [statesFrom]

/-- Writing chunks appends them to the current content. -/
theorem runOps_writeChunks (fs : FsState) (path : String) (acc : List ℕ)
    (chunks : List (List ℕ)) (hacc : fs.read path = some acc) :
    (runOps fs (chunks.map (FsOp.writeChunk path))).read path
      = some (acc ++ chunks.flatten) := by
  induction chunks generalizing fs acc with
  | nil => simpa [runOps] using hacc
  | cons c cs ih =>
    have hstep : FsOp.apply fs (FsOp.writeChunk path c) = fs.write path (acc ++ c) := by
      simp [FsOp.apply, hacc]
    have : runOps fs ((c :: cs).map (FsOp.writeChunk path))
        = runOps (fs.write path (acc ++ c)) (cs.map (FsOp.writeChunk path)) := by
      simp [runOps, hstep]
    rw [this, ih (fs.write path (acc ++ c)) (acc ++ c) (FsState.read_write_self _ _ _)]
    simp

/-- C2 counterexample: at the concrete miss `cachedMissOps ".cache" "e.cache~"
[[7], [8]]` from an empty file system, the wrapper neither follows the
temp-then-rename discipline nor is its persistence atomic for readers. -/
theorem cached_miss_not_atomic_counterexample :
    ¬ TempThenRename (cachedMissOps ".cache" "e.cache~" [[7], [8]]) "e.cache~" ∧
    ¬ AtomicPersist ⟨[]⟩ (cachedMissOps ".cache" "e.cache~" [[7], [8]])
      "e.cache~" [7, 8] := by
  constructor
  · rintro ⟨h1, tmp, h2⟩
    simp [cachedMissOps] at h2
  · intro h
    have hm : FsState.write ⟨[]⟩ "e.cache~" [] ∈
        statesFrom ⟨[]⟩ (cachedMissOps ".cache" "e.cache~" [[7], [8]]) := by
      with_unfolding_all decide
    rcases h _ hm with h2 | h2 <;>
      rw [FsState.read_write_self] at h2 <;> simp at h2

/-- C2 (amended): on a miss the wrapper writes the serialized result DIRECTLY to
the final entry path with no rename, and the complete entry is present at the
end; but the persistence is not atomic — as soon as `open(path, "wb")` truncates
the entry, a reader can observe it with partial content. -/
theorem cached_miss_writes_direct (dir path : String) (chunks : List (List ℕ))
    (fs : FsState) (hne : chunks.flatten ≠ []) :
    (∀ op ∈ cachedMissOps dir path chunks, op.isRename = false) ∧
    (runOps fs (cachedMissOps dir path chunks)).read path = some chunks.flatten ∧
    ¬ AtomicPersist fs (cachedMissOps dir path chunks) path chunks.flatten := by
  refine ⟨?_, ?_, ?_⟩
  · intro op hop
    simp only [cachedMissOps, List.mem_cons, List.mem_map] at hop
    rcases hop with rfl | rfl | ⟨b, _, rfl⟩ <;> rfl
  · have hrun : runOps fs (cachedMissOps dir path chunks)
        = runOps (fs.write path []) (chunks.map (FsOp.writeChunk path)) := by
      simp [cachedMissOps, runOps, FsOp.apply]
    rw [hrun, runOps_writeChunks (fs.write path []) path [] chunks
      (FsState.read_write_self _ _ _)]
    simp
  · intro h
    have hm : fs.write path [] ∈ statesFrom fs (cachedMissOps dir path chunks) := by
      simp only [cachedMissOps, statesFrom, FsOp.apply, List.map_cons]
      exact List.mem_cons_of_mem _ (List.mem_cons_of_mem _ (mem_statesFrom_self _ _))
    rcases h _ hm with h2 | h2 <;> rw [FsState.read_write_self] at h2
    · cases h2
    · exact hne (Option.some.inj h2).symm

/-- Witness for the amended C2 at the concrete miss from an empty file system. -/
theorem cached_miss_writes_direct_witness :
    (∀ op ∈ cachedMissOps ".cache" "e2.cache~" [[7], [8]], op.isRename = false) ∧
    (runOps ⟨[]⟩ (cachedMissOps ".cache" "e2.cache~" [[7], [8]])).read "e2.cache~"
      = some [7, 8] ∧
    ¬ AtomicPersist ⟨[]⟩ (cachedMissOps ".cache" "e2.cache~" [[7], [8]])
      "e2.cache~" [7, 8] :=
  cached_miss_writes_direct ".cache" "e2.cache~" [[7], [8]] ⟨[]⟩ (by decide)

end SpEnergies
